import Mathlib

/-
Verification of the pi-plan extension (devkade/pi-plan).

The development shallowly embeds the plan-mode orchestrator of
src/index.ts and the approval-selector label logic of
src/plan-action-ui.ts.  The mutable module state of `planExtension`
(planModeEnabled, executionMode, restoreTools, todoItems) together with
the host tool registry (active tools, all tools) is modelled as an
explicit `OrchState`; handlers become pure functions from state (plus
event data) to state paired with the user messages and notices they
emit.  The shell-safety classifier `isSafeReadOnlyCommand` is an
external boolean oracle and is passed in as a function parameter.
-/

namespace PiPlan

/-- One tracked plan step: 1-based ordinal, text, completion flag
(`TodoItem` of src/utils.ts as used by src/index.ts). -/
structure TodoItem where
  step : Nat
  text : String
  completed : Bool
deriving DecidableEq, Repr

/-- Derived operating mode of the orchestrator (spec section 3): the code
represents it by the two booleans `planModeEnabled` / `executionMode`. -/
inductive Mode where
  | Planning
  | Executing
  | Idle
deriving DecidableEq, Repr

/-- The orchestrator state of `planExtension` in src/index.ts: the four
module-level mutable variables, plus the host registry view (the list of
currently active tools and the list of all registered tool names). -/
structure OrchState where
  planModeEnabled : Bool
  executionMode : Bool
  restoreTools : Option (List String)
  todoItems : List TodoItem
  activeTools : List String
  allTools : List String
deriving DecidableEq, Repr

/-- `PLAN_TOOL_CANDIDATES` from src/index.ts. -/
def PLAN_TOOL_CANDIDATES : List String :=
  ["read", "bash", "grep", "find", "ls", "lsp", "ast_search", "web_search",
    "fetch_content", "get_search_content"]

/-- `WRITE_LIKE_TOOLS` from src/index.ts. -/
def WRITE_LIKE_TOOLS : List String :=
  ["edit", "write", "ast_rewrite"]

/-- The fixed rejection reason the tool_call handler returns for
write-like tools (src/index.ts, tool_call handler). -/
def PLAN_MODE_BLOCK_REASON : String :=
  "Plan mode is read-only. Approve execution first (choose \x27Approve and execute now\x27)."

/-- `EXECUTION_TRIGGER_PROMPT` from src/index.ts. -/
def EXECUTION_TRIGGER_PROMPT : String :=
  "Plan approved. Switch to implementation mode and execute the latest plan now."

/-- First-occurrence-preserving de-duplication, the behaviour of the
JavaScript idiom spreading an Array into a Set and back
(src/index.ts, `getPlanTools` fallback). -/
def dedupKeepFirst (seen : List String) : List String → List String
  | [] => []
  | x :: xs =>
    if x ∈ seen then dedupKeepFirst seen xs
    else x :: dedupKeepFirst (x :: seen) xs

/-- `getPlanTools` from src/index.ts: intersect the candidate list with the
available (registered) tools in candidate order; if empty, fall back to the
active tools minus the write-like set, de-duplicated. -/
def getPlanTools (available active : List String) : List String :=
  let planTools := PLAN_TOOL_CANDIDATES.filter (fun t => t ∈ available)
  if planTools ≠ [] then planTools
  else dedupKeepFirst [] (active.filter (fun t => t ∉ WRITE_LIKE_TOOLS))

/-- `restoreNormalTools` from src/index.ts: install the snapshot if present
and non-empty, else all registered tools; skip the install when the chosen
list is empty; clear the snapshot. -/
def restoreNormalTools (s : OrchState) : OrchState :=
  let toolsToRestore :=
    match s.restoreTools with
    | some rt => if rt ≠ [] then rt else s.allTools
    | none => s.allTools
  let s1 := if toolsToRestore ≠ [] then { s with activeTools := toolsToRestore } else s
  { s1 with restoreTools := none }

/-- The derived mode: Planning while `planModeEnabled`, else Executing while
`executionMode`, else Idle. -/
def modeOf (s : OrchState) : Mode :=
  if s.planModeEnabled then Mode.Planning
  else if s.executionMode then Mode.Executing
  else Mode.Idle

/-- `enterPlanMode` from src/index.ts.  Returns the new state and the
notices emitted.  Note the capture of `restoreTools` happens before the
resolution check, and the clearing of `todoItems` after it. -/
def enterPlanMode (s : OrchState) : OrchState × List String :=
  if s.planModeEnabled then (s, ["Plan mode is already enabled."])
  else
    let s1 :=
      { s with restoreTools := if s.activeTools ≠ [] then some s.activeTools else none }
    let planTools := getPlanTools s1.allTools s1.activeTools
    if planTools = [] then (s1, ["No read-only tool set could be resolved."])
    else
      ({ s1 with
          todoItems := []
          executionMode := false
          activeTools := planTools
          planModeEnabled := true },
        ["Plan mode enabled (read-only): " ++ String.intercalate ", " planTools])

/-- `exitPlanMode` from src/index.ts.  Returns the new state and the
notices emitted. -/
def exitPlanMode (s : OrchState) (reason : Option String) (resetProgress : Bool) :
    OrchState × List String :=
  if ¬ s.planModeEnabled then
    let s1 := if resetProgress then { s with executionMode := false, todoItems := [] } else s
    (s1, reason.toList)
  else
    let s1 := restoreNormalTools { s with planModeEnabled := false }
    let s2 := if resetProgress then { s1 with executionMode := false, todoItems := [] } else s1
    (s2, reason.toList)

/-- Decision returned by the tool_call event handler: allow the call
through, or block it with a reason. -/
inductive ToolCallDecision where
  | allow
  | block (reason : String)
deriving DecidableEq, Repr

/-- The tool_call handler from src/index.ts.  `isSafeReadOnlyCommand` is the
external shell-safety oracle (src/utils.ts, out of scope per the spec);
`command` is the string-typed `command` field of the event input when
present (`none` models a missing or non-string field). -/
def toolCallHandler (isSafeReadOnlyCommand : String → Bool) (s : OrchState)
    (toolName : String) (command : Option String) : ToolCallDecision :=
  if ¬ s.planModeEnabled then ToolCallDecision.allow
  else if toolName ∈ WRITE_LIKE_TOOLS then ToolCallDecision.block PLAN_MODE_BLOCK_REASON
  else if toolName = "bash" then
    let cmd := command.getD ""
    if ¬ isSafeReadOnlyCommand cmd then
      ToolCallDecision.block ("Plan mode blocked a potentially mutating bash command: " ++ cmd)
    else ToolCallDecision.allow
  else ToolCallDecision.allow

/-- Modelled from the spec: `MarkCompleted(text, steps)` of spec section 4.3
(its implementation `markCompletedSteps` lives in src/utils.ts, which is not
among the provided sources).  The scan of the turn text for
ordinal-referencing completion markers is abstracted as the list `markers`
of referenced ordinals; each incomplete record whose ordinal is referenced
flips to completed, duplicate or out-of-range ordinals are ignored, and the
count of newly flipped records is returned. -/
def markCompletedSteps (markers : List Nat) (items : List TodoItem) :
    Nat × List TodoItem :=
  ((items.filter (fun it => !it.completed && markers.contains it.step)).length,
    items.map (fun it =>
      if markers.contains it.step then { it with completed := true } else it))

/-- The turn_end handler from src/index.ts. `hasText` models whether the
finished turn carried non-empty assistant text; `markers` are the step
ordinals referenced by that text's completion markers. -/
def turnEndHandler (markers : List Nat) (hasText : Bool) (s : OrchState) :
    OrchState × List String :=
  if ¬ s.executionMode ∨ s.todoItems = [] then (s, [])
  else if ¬ hasText then (s, [])
  else
    let items := (markCompletedSteps markers s.todoItems).2
    let s1 := { s with todoItems := items }
    if items.all (fun it => it.completed) then
      ({ s1 with executionMode := false }, ["All tracked plan steps are complete."])
    else (s1, [])

/-- Result of one approval round of the action selector
(`PlanNextActionResult` of src/plan-action-ui.ts); the action is the
selector's string value, one of "approve", "continue", "regenerate",
"exit". -/
structure PlanNextActionResult where
  cancelled : Bool
  action : Option String
  continueNote : Option String
deriving DecidableEq, Repr

/-- The step-sequence re-extraction the agent_end handler performs before
presenting the selector (src/index.ts): a non-empty extraction replaces
`todoItems` in full, an empty one retains the previous items.  `extracted`
is the result of `extractTodoItems` on the latest assistant text. -/
def applyPlanExtraction (s : OrchState) (extracted : List TodoItem) : OrchState :=
  if extracted ≠ [] then { s with todoItems := extracted } else s

/-- JavaScript `String.prototype.trim`, modelled on the character list:
drop whitespace from both ends. -/
def jsTrim (s : String) : String :=
  String.mk (((s.data.dropWhile Char.isWhitespace).reverse.dropWhile Char.isWhitespace).reverse)

/-- The selection-handling phase of the agent_end handler from
src/index.ts (everything after the selector returns): produces the new
state, the user messages sent via `sendUserMessage`, and the notices. -/
def handleSelection (s : OrchState) (sel : PlanNextActionResult) :
    OrchState × List String × List String :=
  if sel.cancelled ∨ sel.action = none then (s, [], [])
  else if sel.action = some "approve" then
    let s1 := { s with executionMode := s.todoItems ≠ [] }
    let s2 := (exitPlanMode s1 (some "Plan approved. Entering YOLO mode for execution.") false).1
    let notices := (exitPlanMode s1 (some "Plan approved. Entering YOLO mode for execution.") false).2
    match s2.todoItems.find? (fun it => !it.completed) with
    | some firstOpen =>
      (s2,
        [EXECUTION_TRIGGER_PROMPT ++ " Start with step " ++ toString firstOpen.step ++ ": "
          ++ firstOpen.text],
        notices)
    | none => (s2, [EXECUTION_TRIGGER_PROMPT], notices)
  else if sel.action = some "regenerate" then
    ({ s with todoItems := [] },
      ["Regenerate the full plan from scratch. Re-check context and provide a refreshed Plan: section."],
      [])
  else if sel.action = some "continue" then
    let continueNote := jsTrim (sel.continueNote.getD "")
    if continueNote = "" then
      (s, [],
        ["Please enter the requested modifications, then send your message to continue planning. Waiting for your input."])
    else
      match s.todoItems.find? (fun it => !it.completed) with
      | some firstOpen =>
        (s,
          ["Continue planning from the proposed plan. User note: " ++ continueNote
            ++ ". Focus on step " ++ toString firstOpen.step ++ ": " ++ firstOpen.text
            ++ ". Refine files, validation, and risks in read-only mode."],
          [])
      | none =>
        (s,
          ["Continue planning from the proposed plan. User note: " ++ continueNote
            ++ ". Refine implementation details without regenerating the full plan."],
          [])
  else if sel.action = some "exit" then
    let r := exitPlanMode s (some "Exited plan mode without execution.") true
    (r.1, [], r.2)
  else (s, [], [])

/-- The full agent_end handler from src/index.ts: guard on planning mode and
UI presence, re-extract the step sequence, then present the selector and
handle the selection. -/
def agentEndHandler (s : OrchState) (hasUI : Bool) (extracted : List TodoItem)
    (sel : PlanNextActionResult) : OrchState × List String × List String :=
  if ¬ s.planModeEnabled ∨ ¬ hasUI then (s, [], [])
  else handleSelection (applyPlanExtraction s extracted) sel

/-- One call of the /plan command restricted to the enter/exit lifecycle:
`enter` is `/plan on` (enterPlanMode), `exit` is `/plan off`
(exitPlanMode with a reason and resetProgress). -/
inductive PlanOp where
  | enter
  | exit
deriving DecidableEq, Repr

/-- Execute a sequence of enter/exit calls, carrying a ghost record of the
active tool list in effect immediately before the most recent successful
enter-planning call (`none` until the first successful enter). -/
def execPlanOps : OrchState → Option (List String) → List PlanOp → OrchState × Option (List String)
  | s, g, [] => (s, g)
  | s, g, PlanOp.enter :: ops =>
    let s1 := (enterPlanMode s).1
    let g1 := if !s.planModeEnabled && s1.planModeEnabled then some s.activeTools else g
    execPlanOps s1 g1 ops
  | s, g, PlanOp.exit :: ops =>
    execPlanOps (exitPlanMode s (some "Plan mode disabled. Back to YOLO mode.") true).1 g ops

/-- `normalizeContinueNote` from src/plan-action-ui.ts: collapse every
whitespace run to a single space and trim the ends (the JavaScript
`replace` of the whitespace-run pattern by a space followed by `trim`).
Characters model UTF-16 code units; all characters involved are in the
basic plane, so lengths agree with the JavaScript string lengths. -/
def normalizeContinueNote (note : List Char) : List Char :=
  List.intercalate [' ']
    (((note.splitOnP (fun c => c.isWhitespace))).filter (fun w => w ≠ []))

/-- The combined inline label of src/plan-action-ui.ts: the option label,
the note separator, and the normalized note (with a trailing cursor mark
while the editor is open). -/
def continueInlineLabel (baseLabel note : List Char) (isEditing : Bool) : List Char :=
  baseLabel ++ (" — note: ".data)
    ++ (if isEditing then normalizeContinueNote note ++ ['▍'] else normalizeContinueNote note)

/-- `buildContinueOptionLabel` from src/plan-action-ui.ts: inline the
normalized note (plus a cursor mark while editing) after the option label;
return it whole when it fits in `maxLength`, otherwise truncate the
combined string to `maxLength - 1` characters and append the ellipsis
(just the ellipsis when `maxLength ≤ 1`). -/
def buildContinueOptionLabel (baseLabel note : List Char) (isEditing : Bool)
    (maxLength : Nat) : List Char :=
  let normalized := normalizeContinueNote note
  if normalized = [] ∧ isEditing = false then baseLabel
  else
    let inline := continueInlineLabel baseLabel note isEditing
    if inline.length ≤ maxLength then inline
    else if maxLength ≤ 1 then ['…']
    else inline.take (maxLength - 1) ++ ['…']

/-- The continue option's label in `ACTION_OPTIONS`
(src/plan-action-ui.ts). -/
def CONTINUE_OPTION_LABEL : List Char := "Continue from proposed plan".data

/-- A sample state in Planning mode. -/
def sPlanning : OrchState :=
  ⟨true, false, some ["edit", "bash"], [⟨1, "Write parser", false⟩], ["read"],
    ["read", "edit", "bash"]⟩

/-- A sample state in Idle mode. -/
def sIdle : OrchState :=
  ⟨false, false, none, [], ["edit"], ["read", "edit"]⟩

/-- A sample state in Executing mode with one incomplete tracked step. -/
def sExecuting : OrchState :=
  ⟨false, true, none, [⟨1, "Write parser", false⟩], ["edit"], ["edit"]⟩

/-- The spec scenario state: active tools edit, bash, read; the registry
also offers the read-only candidates read and bash. -/
def sScenario : OrchState :=
  ⟨false, false, none, [], ["edit", "bash", "read"], ["read", "bash", "edit", "write"]⟩

/-- An Idle state with an empty active tool list (entering planning still
succeeds through the candidate intersection). -/
def sEmptyActive : OrchState :=
  ⟨false, false, none, [], [], ["read", "edit"]⟩

/-- An Idle state carrying a pending (captured, never consumed) tool
snapshot, as left behind by an entry attempt that failed tool
resolution. -/
def sPendingSnapshot : OrchState :=
  ⟨false, false, some ["edit"], [], ["write"], ["read"]⟩

/-- A state from which entering planning cannot resolve any read-only tool
set: no candidate is registered and the active tools are all
write-like. -/
def sNoReadOnly : OrchState :=
  ⟨false, false, none, [⟨1, "a", true⟩], ["edit"], ["x"]⟩

theorem modeOf_eq_planning_iff (s : OrchState) :
    modeOf s = Mode.Planning ↔ s.planModeEnabled = true := by
  unfold modeOf
  by_cases h : s.planModeEnabled
  · simp [h]
  · by_cases h2 : s.executionMode <;> simp [h, h2]

theorem modeOf_eq_executing_iff (s : OrchState) :
    modeOf s = Mode.Executing ↔ s.planModeEnabled = false ∧ s.executionMode = true := by
  unfold modeOf
  by_cases h : s.planModeEnabled
  · simp [h]
  · by_cases h2 : s.executionMode <;> simp [h, h2]

theorem exitPlanMode_planModeEnabled (s : OrchState) (reason : Option String)
    (rp : Bool) (h : s.planModeEnabled = true) :
    (exitPlanMode s reason rp).1.planModeEnabled = false := by
  cases rp <;> simp [exitPlanMode, restoreNormalTools, h] <;> split <;> rfl

theorem exitPlanMode_restoreTools (s : OrchState) (reason : Option String)
    (rp : Bool) (h : s.planModeEnabled = true) :
    (exitPlanMode s reason rp).1.restoreTools = none := by
  cases rp <;> simp [exitPlanMode, restoreNormalTools, h] <;> split <;> rfl

theorem exitPlanMode_activeTools_of_snapshot (s : OrchState) (reason : Option String)
    (rp : Bool) (h : s.planModeEnabled = true) (rt : List String)
    (hrt : s.restoreTools = some rt) (hne : rt ≠ []) :
    (exitPlanMode s reason rp).1.activeTools = rt := by
  cases rp <;> simp [exitPlanMode, restoreNormalTools, h, hrt, hne]

theorem exitPlanMode_activeTools_of_no_snapshot (s : OrchState) (reason : Option String)
    (rp : Bool) (h : s.planModeEnabled = true)
    (hrt : s.restoreTools = none) (hall : s.allTools ≠ []) :
    (exitPlanMode s reason rp).1.activeTools = s.allTools := by
  cases rp <;> simp [exitPlanMode, restoreNormalTools, h, hrt, hall]

theorem exitPlanMode_keeps_progress (s : OrchState) (reason : Option String)
    (h : s.planModeEnabled = true) :
    (exitPlanMode s reason false).1.executionMode = s.executionMode
    ∧ (exitPlanMode s reason false).1.todoItems = s.todoItems := by
  simp only [exitPlanMode, restoreNormalTools, h]
  constructor <;> simp <;> split <;> rfl

/-- C1: while the orchestrator is in Planning mode, the tool_call handler
blocks every call naming a tool of the fixed mutating set
(edit, write, ast_rewrite) with the fixed rejection reason referencing the
approval gate, regardless of the input payload; while the mode is not
Planning, the handler never blocks any tool call. -/
theorem c1_plan_mode_blocks_mutating_tools (isSafe : String → Bool) (s : OrchState)
    (toolName : String) (command : Option String) :
    (modeOf s = Mode.Planning → toolName ∈ WRITE_LIKE_TOOLS →
      toolCallHandler isSafe s toolName command = ToolCallDecision.block PLAN_MODE_BLOCK_REASON)
    ∧ (modeOf s ≠ Mode.Planning →
      toolCallHandler isSafe s toolName command = ToolCallDecision.allow) := by
  constructor
  · intro hp hw
    rw [modeOf_eq_planning_iff] at hp
    simp [toolCallHandler, hp, hw]
  · intro hp
    have hpm : s.planModeEnabled = false := by
      rcases Bool.eq_false_or_eq_true s.planModeEnabled with h | h
      · exact absurd ((modeOf_eq_planning_iff s).mpr h) hp
      · exact h
    simp [toolCallHandler, hpm]

/-- Witness for C1: in a concrete Planning state the edit tool is blocked
with the approval-gate reason; in a concrete Idle state it is allowed. -/
theorem c1_witness :
    toolCallHandler (fun _ => true) sPlanning "edit" none
      = ToolCallDecision.block PLAN_MODE_BLOCK_REASON
    ∧ toolCallHandler (fun _ => true) sIdle "edit" none = ToolCallDecision.allow :=
  ⟨(c1_plan_mode_blocks_mutating_tools (fun _ => true) sPlanning "edit" none).1
      (by decide) (by decide),
    (c1_plan_mode_blocks_mutating_tools (fun _ => true) sIdle "edit" none).2 (by decide)⟩

/-- C4: when the approval selector is dismissed (a cancelled result), the
handling of the selection leaves the whole orchestrator state unchanged
(mode, step sequence, tool snapshot, active tool set) and sends no
instruction message and no notice. -/
theorem c4_cancelled_selection_is_noop (s : OrchState) (sel : PlanNextActionResult)
    (_hmode : modeOf s = Mode.Planning) (hc : sel.cancelled = true) :
    handleSelection s sel = (s, [], []) := by
  simp [handleSelection, hc]

/-- Witness for C4: a concrete Planning state with a cancelled selection is
returned untouched, with no messages. -/
theorem c4_witness :
    handleSelection sPlanning ⟨true, none, none⟩ = (sPlanning, [], []) :=
  c4_cancelled_selection_is_noop sPlanning ⟨true, none, none⟩ (by decide) (by decide)

/-- C7: when no read-only tool set can be resolved (candidate intersection
and fallback both empty), entering planning aborts with the reported error:
planning is not entered, the derived mode is unchanged, the active tool set
is not modified also, and the step sequence is not cleared. -/
theorem c7_enter_aborts_when_unresolvable (s : OrchState)
    (hpm : s.planModeEnabled = false)
    (hres : getPlanTools s.allTools s.activeTools = []) :
    (enterPlanMode s).1.planModeEnabled = false
    ∧ modeOf (enterPlanMode s).1 = modeOf s
    ∧ (enterPlanMode s).1.activeTools = s.activeTools
    ∧ (enterPlanMode s).1.todoItems = s.todoItems
    ∧ (enterPlanMode s).2 = ["No read-only tool set could be resolved."] := by
  simp only [enterPlanMode, hpm, Bool.false_eq_true, if_false, hres, if_pos rfl]
  refine ⟨rfl, ?_, rfl, rfl, rfl⟩
  simp [modeOf, hpm]

/-- Witness for C7: a concrete state with only the write-like edit tool
active and no registered candidate tool; the entry attempt aborts without
touching mode, active tools or steps. -/
theorem c7_witness :
    (enterPlanMode sNoReadOnly).1.planModeEnabled = false
    ∧ modeOf (enterPlanMode sNoReadOnly).1 = modeOf sNoReadOnly
    ∧ (enterPlanMode sNoReadOnly).1.activeTools = sNoReadOnly.activeTools
    ∧ (enterPlanMode sNoReadOnly).1.todoItems = sNoReadOnly.todoItems
    ∧ (enterPlanMode sNoReadOnly).2 = ["No read-only tool set could be resolved."] :=
  c7_enter_aborts_when_unresolvable sNoReadOnly (by decide) (by decide)

/-- Counterexample for C9: in the concrete state `sPendingSnapshot` a
captured snapshot (some ["edit"]) is pending — captured by an earlier entry
attempt that failed tool resolution and consumed by no exit — yet a
subsequent enter-planning call overwrites it with the current active tools
(some ["write"]), and the next exit restores the new snapshot, not the
pending one. -/
theorem c9_counterexample :
    sPendingSnapshot.restoreTools = some ["edit"]
    ∧ sPendingSnapshot.planModeEnabled = false
    ∧ (enterPlanMode sPendingSnapshot).1.restoreTools = some ["write"]
    ∧ (enterPlanMode sPendingSnapshot).1.restoreTools ≠ some ["edit"]
    ∧ (exitPlanMode (enterPlanMode sPendingSnapshot).1 none false).1.activeTools = ["write"]
    ∧ (exitPlanMode (enterPlanMode sPendingSnapshot).1 none false).1.activeTools ≠ ["edit"] := by
  decide

/-- C9 (amended): while planning mode is enabled — the pending-snapshot
situation the state machine's invariants produce — a re-entry attempt is a
pure no-op: the whole state, and in particular the pending snapshot, is
left untouched.  (A snapshot left pending by a failed entry attempt, with
planning not enabled, is instead overwritten by the next capture.) -/
theorem c9_amended_reentry_keeps_snapshot (s : OrchState)
    (hpm : s.planModeEnabled = true) :
    (enterPlanMode s).1 = s ∧ (enterPlanMode s).1.restoreTools = s.restoreTools := by
  constructor <;> simp [enterPlanMode, hpm]

/-- Witness for C9 (amended): re-entering planning from a concrete Planning
state keeps the state and its snapshot. -/
theorem c9_witness :
    (enterPlanMode sPlanning).1 = sPlanning
    ∧ (enterPlanMode sPlanning).1.restoreTools = sPlanning.restoreTools :=
  c9_amended_reentry_keeps_snapshot sPlanning (by decide)

/-- Counterexample for C3: in the concrete Executing state `sExecuting`
(one incomplete step) a turn whose markers complete every step makes the
turn_end handler transition to Idle and emit the completion notice, but the
step sequence is NOT cleared: the (now completed) records are retained. -/
theorem c3_counterexample :
    modeOf sExecuting = Mode.Executing
    ∧ sExecuting.todoItems ≠ []
    ∧ ((markCompletedSteps [1] sExecuting.todoItems).2.all (fun it => it.completed)) = true
    ∧ modeOf (turnEndHandler [1] true sExecuting).1 = Mode.Idle
    ∧ (turnEndHandler [1] true sExecuting).2 = ["All tracked plan steps are complete."]
    ∧ (turnEndHandler [1] true sExecuting).1.todoItems ≠ [] := by
  decide

/-- C3 (amended): for every Executing state with a non-empty step sequence,
if after applying the completion markers of a finished turn every step
record is completed, the turn_end handler transitions Executing → Idle and
emits the completion notice, but retains the (fully completed) step
sequence instead of clearing it. -/
theorem c3_amended_all_steps_complete (markers : List Nat) (s : OrchState)
    (hmode : modeOf s = Mode.Executing) (hne : s.todoItems ≠ [])
    (hall : ((markCompletedSteps markers s.todoItems).2.all (fun it => it.completed)) = true) :
    modeOf (turnEndHandler markers true s).1 = Mode.Idle
    ∧ (turnEndHandler markers true s).1.todoItems = (markCompletedSteps markers s.todoItems).2
    ∧ (turnEndHandler markers true s).2 = ["All tracked plan steps are complete."] := by
  rw [modeOf_eq_executing_iff] at hmode
  obtain ⟨hpm, hem⟩ := hmode
  simp [turnEndHandler, hem, hne, hall, modeOf, hpm]

/-- Witness for C3 (amended): the concrete Executing state, whose single
step a marker completes, transitions to Idle with the notice and retains
the completed record. -/
theorem c3_witness :
    modeOf (turnEndHandler [1] true sExecuting).1 = Mode.Idle
    ∧ (turnEndHandler [1] true sExecuting).1.todoItems
        = (markCompletedSteps [1] sExecuting.todoItems).2
    ∧ (turnEndHandler [1] true sExecuting).2 = ["All tracked plan steps are complete."] :=
  c3_amended_all_steps_complete [1] sExecuting (by decide) (by decide) (by decide)

/-- C5: handling an Approve selection makes the mode Executing when the
step sequence is non-empty and Idle when it is empty (never a stalled
Executing without steps); planning is exited with the snapshot consumed and
the tools restored; exactly one instruction is issued, and it names the
first incomplete step when one exists. -/
theorem c5_approve_transitions (s : OrchState) (sel : PlanNextActionResult)
    (hmode : modeOf s = Mode.Planning) (hc : sel.cancelled = false)
    (ha : sel.action = some "approve") :
    modeOf (handleSelection s sel).1 = (if s.todoItems = [] then Mode.Idle else Mode.Executing)
    ∧ (handleSelection s sel).1.planModeEnabled = false
    ∧ (handleSelection s sel).1.restoreTools = none
    ∧ (∀ rt, s.restoreTools = some rt → rt ≠ [] →
        (handleSelection s sel).1.activeTools = rt)
    ∧ (s.restoreTools = none → s.allTools ≠ [] →
        (handleSelection s sel).1.activeTools = s.allTools)
    ∧ (∀ st, s.todoItems.find? (fun it => !it.completed) = some st →
        (handleSelection s sel).2.1 =
          [EXECUTION_TRIGGER_PROMPT ++ " Start with step " ++ toString st.step ++ ": "
            ++ st.text])
    ∧ (s.todoItems.find? (fun it => !it.completed) = none →
        (handleSelection s sel).2.1 = [EXECUTION_TRIGGER_PROMPT]) := by
  have hpm : s.planModeEnabled = true := (modeOf_eq_planning_iff s).mp hmode
  have hkeep := exitPlanMode_keeps_progress
    { s with executionMode := decide (s.todoItems ≠ []) }
    (some "Plan approved. Entering YOLO mode for execution.") hpm
  have hxpm := exitPlanMode_planModeEnabled
    { s with executionMode := decide (s.todoItems ≠ []) }
    (some "Plan approved. Entering YOLO mode for execution.") false hpm
  have hxrt := exitPlanMode_restoreTools
    { s with executionMode := decide (s.todoItems ≠ []) }
    (some "Plan approved. Entering YOLO mode for execution.") false hpm
  have hxem : (exitPlanMode { s with executionMode := decide (s.todoItems ≠ []) }
      (some "Plan approved. Entering YOLO mode for execution.") false).1.executionMode
      = decide (s.todoItems ≠ []) := hkeep.1
  have hmode2 : modeOf (exitPlanMode { s with executionMode := decide (s.todoItems ≠ []) }
      (some "Plan approved. Entering YOLO mode for execution.") false).1
      = (if s.todoItems = [] then Mode.Idle else Mode.Executing) := by
    unfold modeOf
    rw [hxpm, hxem]
    by_cases hni : s.todoItems = [] <;> simp [hni]
  have htodo : (exitPlanMode { s with executionMode := decide (s.todoItems ≠ []) }
      (some "Plan approved. Entering YOLO mode for execution.") false).1.todoItems
      = s.todoItems := hkeep.2
  rcases hfind : s.todoItems.find? (fun it => !it.completed) with _ | st <;>
    simp only [handleSelection, hc, ha, Bool.false_eq_true, false_or,
      Option.some.injEq, reduceCtorEq, if_false, if_pos rfl, if_true, htodo, hfind] <;>
    refine ⟨hmode2, hxpm, hxrt, ?_, ?_, ?_, ?_⟩
  all_goals
    first
      | (intro rt hrt hne
         exact exitPlanMode_activeTools_of_snapshot
           { s with executionMode := decide (s.todoItems ≠ []) } _ false hpm rt hrt hne)
      | (intro hrt hall
         exact exitPlanMode_activeTools_of_no_snapshot
           { s with executionMode := decide (s.todoItems ≠ []) } _ false hpm hrt hall)
      | trivial
      | (intro st2 hst2
         first
           | (simp at hst2)
           | (cases hst2; rfl)
           | (subst hst2; rfl)
           | simp_all)
      | simp_all

/-- Witness for C5: approving from the concrete Planning state `sPlanning`
(one incomplete step, snapshot some [edit, bash]) yields Executing mode,
planning exited, tools restored from the snapshot, and the instruction
naming step 1. -/
theorem c5_witness :
    modeOf (handleSelection sPlanning ⟨false, some "approve", none⟩).1 = Mode.Executing
    ∧ (handleSelection sPlanning ⟨false, some "approve", none⟩).1.planModeEnabled = false
    ∧ (handleSelection sPlanning ⟨false, some "approve", none⟩).1.activeTools = ["edit", "bash"]
    ∧ (handleSelection sPlanning ⟨false, some "approve", none⟩).2.1
        = [EXECUTION_TRIGGER_PROMPT ++ " Start with step "
            ++ toString (1 : Nat) ++ ": " ++ "Write parser"] := by
  have h := c5_approve_transitions sPlanning ⟨false, some "approve", none⟩ (by decide) rfl rfl
  refine ⟨?_, h.2.1, ?_, ?_⟩
  · simpa using h.1
  · exact h.2.2.2.1 ["edit", "bash"] rfl (by decide)
  · exact h.2.2.2.2.2.1 ⟨1, "Write parser", false⟩ (by decide)

/-- C6: handling a Continue selection with a note that is absent or trims
to empty keeps the state unchanged (mode stays Planning, steps untouched)
and sends no instruction, surfacing only the waiting notice; with a
non-empty note the state is also unchanged and exactly one instruction is
sent, containing the note verbatim. -/
theorem c6_continue_refinement (s : OrchState) (sel : PlanNextActionResult)
    (_hmode : modeOf s = Mode.Planning) (hc : sel.cancelled = false)
    (ha : sel.action = some "continue") :
    (jsTrim (sel.continueNote.getD "") = "" →
      handleSelection s sel =
        (s, [],
          ["Please enter the requested modifications, then send your message to continue planning. Waiting for your input."]))
    ∧ (jsTrim (sel.continueNote.getD "") ≠ "" →
      (handleSelection s sel).1 = s
      ∧ (handleSelection s sel).2.1.length = 1
      ∧ ∃ a b, (handleSelection s sel).2.1 = [a ++ jsTrim (sel.continueNote.getD "") ++ b]) := by
  constructor
  · intro h
    simp [handleSelection, hc, ha, h]
  · intro h
    rcases hfind : s.todoItems.find? (fun it => !it.completed) with _ | st <;>
      simp only [handleSelection, hc, ha, Bool.false_eq_true, false_or,
        Option.some.injEq, reduceCtorEq, if_false, if_pos rfl, if_true, if_neg h,
        String.reduceEq, hfind] <;>
      refine ⟨by first | rfl | trivial, by first | rfl | trivial, ?_⟩
    · exact ⟨"Continue planning from the proposed plan. User note: ",
        ". Refine implementation details without regenerating the full plan.",
        by simp [String.append_assoc]⟩
    · exact ⟨"Continue planning from the proposed plan. User note: ",
        ". Focus on step " ++ toString st.step ++ ": " ++ st.text
          ++ ". Refine files, validation, and risks in read-only mode.",
        by simp [String.append_assoc]⟩

/-- Witness for C6: from the concrete Planning state, a Continue with no
note pauses with the waiting notice only, and a Continue with the note
"fix tests" leaves the state unchanged and sends one instruction carrying
the note verbatim. -/
theorem c6_witness :
    handleSelection sPlanning ⟨false, some "continue", none⟩ =
      (sPlanning, [],
        ["Please enter the requested modifications, then send your message to continue planning. Waiting for your input."])
    ∧ (handleSelection sPlanning ⟨false, some "continue", some "fix tests"⟩).1 = sPlanning
    ∧ (handleSelection sPlanning ⟨false, some "continue", some "fix tests"⟩).2.1.length = 1
    ∧ ∃ a b, (handleSelection sPlanning ⟨false, some "continue", some "fix tests"⟩).2.1
        = [a ++ jsTrim ((some "fix tests").getD "") ++ b] := by
  refine ⟨(c6_continue_refinement sPlanning ⟨false, some "continue", none⟩
      (by decide) rfl rfl).1 rfl, ?_⟩
  exact (c6_continue_refinement sPlanning ⟨false, some "continue", some "fix tests"⟩
    (by decide) rfl rfl).2 (by decide)

/-- The snapshot/restore invariant carried through sequences of enter/exit
calls: outside planning, whenever a successful enter has been recorded
(ghost `g`), the active tools are the recorded pre-enter list (the full
registry when that list was empty); inside planning, the snapshot holds the
recorded pre-enter list (none when it was empty, in which case the registry
is non-empty). -/
def C2Inv (A : List String) (s : OrchState) (g : Option (List String)) : Prop :=
  s.allTools = A
  ∧ (s.planModeEnabled = false → ∀ pre, g = some pre →
      s.activeTools = (if pre = [] then A else pre))
  ∧ (s.planModeEnabled = true → ∃ pre, g = some pre
      ∧ s.restoreTools = (if pre = [] then none else some pre)
      ∧ (pre = [] → A ≠ []))

theorem getPlanTools_nil_nil : getPlanTools [] [] = [] := by decide

theorem c2inv_enter (A : List String) (s : OrchState) (g : Option (List String))
    (hI : C2Inv A s g) :
    C2Inv A (enterPlanMode s).1
      (if !s.planModeEnabled && (enterPlanMode s).1.planModeEnabled
        then some s.activeTools else g) := by
  obtain ⟨hA, h0, h1⟩ := hI
  by_cases hpm : s.planModeEnabled = true
  · have e : (enterPlanMode s).1 = s := by simp [enterPlanMode, hpm]
    rw [e, hpm]
    exact ⟨hA, h0, h1⟩
  · have hpm' : s.planModeEnabled = false := by
      simpa using hpm
    by_cases hres : getPlanTools s.allTools s.activeTools = []
    · have e : (enterPlanMode s).1 =
          { s with restoreTools := if s.activeTools ≠ [] then some s.activeTools else none } := by
        simp [enterPlanMode, hpm', hres]
      rw [e, hpm']
      refine ⟨hA, ?_, ?_⟩
      · intro _ pre hg
        exact h0 hpm' pre hg
      · intro hcontra
        simp at hcontra
    · have e : (enterPlanMode s).1 =
          { s with
              restoreTools := if s.activeTools ≠ [] then some s.activeTools else none
              todoItems := []
              executionMode := false
              activeTools := getPlanTools s.allTools s.activeTools
              planModeEnabled := true } := by
        simp [enterPlanMode, hpm', hres]
      rw [e, hpm']
      refine ⟨hA, ?_, ?_⟩
      · intro hcontra
        simp at hcontra
      · intro _
        refine ⟨s.activeTools, rfl, ?_, ?_⟩
        · by_cases hempty : s.activeTools = [] <;> simp [hempty]
        · intro hempty hAnil
          apply hres
          rw [hempty, hA, hAnil]
          exact getPlanTools_nil_nil

theorem c2inv_exit (A : List String) (s : OrchState) (g : Option (List String))
    (hI : C2Inv A s g) :
    C2Inv A (exitPlanMode s (some "Plan mode disabled. Back to YOLO mode.") true).1 g := by
  obtain ⟨hA, h0, h1⟩ := hI
  by_cases hpm : s.planModeEnabled = true
  · obtain ⟨pre, hg, hrt, hAne⟩ := h1 hpm
    by_cases hempty : pre = []
    · rw [hempty] at hrt
      simp only [if_pos rfl] at hrt
      have hAnil : s.allTools ≠ [] := by
        rw [hA]; exact hAne hempty
      have e : (exitPlanMode s (some "Plan mode disabled. Back to YOLO mode.") true).1 =
          { s with
              planModeEnabled := false
              restoreTools := none
              activeTools := s.allTools
              executionMode := false
              todoItems := [] } := by
        simp [exitPlanMode, restoreNormalTools, hpm, hrt, hAnil]
      rw [e]
      refine ⟨hA, ?_, ?_⟩
      · intro _ pre2 hg2
        rw [hg] at hg2
        injection hg2 with h2
        subst h2
        rw [if_pos hempty, hA]
      · intro hcontra
        simp at hcontra
    · rw [if_neg hempty] at hrt
      have e : (exitPlanMode s (some "Plan mode disabled. Back to YOLO mode.") true).1 =
          { s with
              planModeEnabled := false
              restoreTools := none
              activeTools := pre
              executionMode := false
              todoItems := [] } := by
        simp [exitPlanMode, restoreNormalTools, hpm, hrt, hempty]
      rw [e]
      refine ⟨hA, ?_, ?_⟩
      · intro _ pre2 hg2
        rw [hg] at hg2
        injection hg2 with h2
        subst h2
        rw [if_neg hempty]
      · intro hcontra
        simp at hcontra
  · have hpm' : s.planModeEnabled = false := by simpa using hpm
    have e : (exitPlanMode s (some "Plan mode disabled. Back to YOLO mode.") true).1 =
        { s with executionMode := false, todoItems := [] } := by
      simp [exitPlanMode, hpm']
    rw [e, hpm']
    refine ⟨hA, ?_, ?_⟩
    · intro _ pre hg
      exact h0 hpm' pre hg
    · intro hcontra
      simp at hcontra

theorem execPlanOps_inv (A : List String) (ops : List PlanOp) :
    ∀ (s : OrchState) (g : Option (List String)), C2Inv A s g →
      C2Inv A (execPlanOps s g ops).1 (execPlanOps s g ops).2 := by
  induction ops with
  | nil => intro s g h; exact h
  | cons op ops ih =>
    intro s g h
    cases op with
    | enter => exact ih _ _ (c2inv_enter A s g h)
    | exit => exact ih _ _ (c2inv_exit A s g h)

/-- Counterexample for C2: from the concrete state `sEmptyActive` (no
active tool, registry offering read and edit) entering planning succeeds
through the candidate intersection, yet the subsequent exit installs the
full registry list [read, edit], not the (empty) active list that was in
effect immediately before the enter. -/
theorem c2_counterexample :
    (enterPlanMode sEmptyActive).1.planModeEnabled = true
    ∧ sEmptyActive.activeTools = []
    ∧ (execPlanOps sEmptyActive none [PlanOp.enter, PlanOp.exit]).1.activeTools = ["read", "edit"]
    ∧ (execPlanOps sEmptyActive none [PlanOp.enter, PlanOp.exit]).1.activeTools
        ≠ sEmptyActive.activeTools := by
  decide

/-- C2 (amended): for every sequence of enter/exit planning calls starting
outside planning, whenever the run is currently outside planning and at
least one successful enter occurred, the active tool set equals, element
for element in original order, the active tool list in effect immediately
before the most recent successful enter (the ghost `pre`) — except that
when that list was empty the full registry tool list is installed
instead. -/
theorem c2_amended_snapshot_roundtrip (ops : List PlanOp) (s : OrchState)
    (hpm : s.planModeEnabled = false)
    (hdone : (execPlanOps s none ops).1.planModeEnabled = false)
    (pre : List String) (hg : (execPlanOps s none ops).2 = some pre) :
    (execPlanOps s none ops).1.activeTools = (if pre = [] then s.allTools else pre) := by
  have hinit : C2Inv s.allTools s none := by
    refine ⟨rfl, ?_, ?_⟩
    · intro _ pre2 hg2
      exact absurd hg2 (by simp)
    · intro hcontra
      rw [hpm] at hcontra
      cases hcontra
  have hinv := execPlanOps_inv s.allTools ops s none hinit
  exact hinv.2.1 hdone pre hg

/-- Witness for C2 (amended): the spec scenario — active tools
[edit, bash, read], candidates read and bash available — enters planning
(active becomes [read, bash]) and exiting restores exactly
[edit, bash, read] in original order. -/
theorem c2_witness :
    (execPlanOps sScenario none [PlanOp.enter, PlanOp.exit]).1.activeTools
      = ["edit", "bash", "read"] := by
  have h := c2_amended_snapshot_roundtrip [PlanOp.enter, PlanOp.exit] sScenario rfl
    (by decide) ["edit", "bash", "read"] (by decide)
  simpa using h

theorem mem_dedupKeepFirst (a : String) : ∀ (seen l : List String),
    a ∈ dedupKeepFirst seen l ↔ (a ∈ l ∧ a ∉ seen) := by
  intro seen l
  induction l generalizing seen with
  | nil => simp [dedupKeepFirst]
  | cons x xs ih =>
    by_cases hx : x ∈ seen
    · rw [dedupKeepFirst, if_pos hx, ih]
      constructor
      · rintro ⟨h1, h2⟩
        exact ⟨List.mem_cons_of_mem x h1, h2⟩
      · rintro ⟨h1, h2⟩
        rcases List.mem_cons.mp h1 with h | h
        · subst h
          exact absurd hx h2
        · exact ⟨h, h2⟩
    · rw [dedupKeepFirst, if_neg hx]
      constructor
      · intro hmem
        rcases List.mem_cons.mp hmem with h | h
        · subst h
          exact ⟨List.mem_cons_self _ _, hx⟩
        · obtain ⟨h1, h2⟩ := (ih (x :: seen)).mp h
          exact ⟨List.mem_cons_of_mem x h1, fun hs => h2 (List.mem_cons_of_mem x hs)⟩
      · rintro ⟨h1, h2⟩
        by_cases hax : a = x
        · subst hax
          exact List.mem_cons_self _ _
        · rcases List.mem_cons.mp h1 with h | h
          · exact absurd h hax
          · exact List.mem_cons_of_mem x
              ((ih (x :: seen)).mpr ⟨h, fun hs => (List.mem_cons.mp hs).elim hax h2⟩)

theorem nodup_dedupKeepFirst : ∀ (seen l : List String), (dedupKeepFirst seen l).Nodup := by
  intro seen l
  induction l generalizing seen with
  | nil => simp [dedupKeepFirst]
  | cons x xs ih =>
    by_cases hx : x ∈ seen
    · rw [dedupKeepFirst, if_pos hx]
      exact ih seen
    · rw [dedupKeepFirst, if_neg hx]
      refine List.nodup_cons.mpr ⟨?_, ih (x :: seen)⟩
      intro hmem
      exact ((mem_dedupKeepFirst x (x :: seen) xs).mp hmem).2 (List.mem_cons_self _ _)

theorem sublist_dedupKeepFirst : ∀ (seen l : List String),
    (dedupKeepFirst seen l).Sublist l := by
  intro seen l
  induction l generalizing seen with
  | nil => simp [dedupKeepFirst]
  | cons x xs ih =>
    by_cases hx : x ∈ seen
    · rw [dedupKeepFirst, if_pos hx]
      exact (ih seen).trans (List.sublist_cons_self x xs)
    · rw [dedupKeepFirst, if_neg hx]
      exact List.Sublist.cons₂ x (ih (x :: seen))

/-- C8: the resolved read-only set is the candidate list filtered to the
available tools, in candidate order (a sublist of the candidate list whose
members are exactly the available candidates); when that intersection is
empty, it is the active list minus the write-like set, de-duplicated while
preserving the active list's order (a duplicate-free sublist of the active
list whose members are exactly the active non-write-like tools). -/
theorem c8_resolve_read_only_set (available active : List String) :
    (PLAN_TOOL_CANDIDATES.filter (fun t => t ∈ available) ≠ [] →
      getPlanTools available active = PLAN_TOOL_CANDIDATES.filter (fun t => t ∈ available)
      ∧ (getPlanTools available active).Sublist PLAN_TOOL_CANDIDATES
      ∧ ∀ x, x ∈ getPlanTools available active ↔ (x ∈ PLAN_TOOL_CANDIDATES ∧ x ∈ available))
    ∧ (PLAN_TOOL_CANDIDATES.filter (fun t => t ∈ available) = [] →
      (getPlanTools available active).Nodup
      ∧ (getPlanTools available active).Sublist active
      ∧ ∀ x, x ∈ getPlanTools available active ↔ (x ∈ active ∧ x ∉ WRITE_LIKE_TOOLS)) := by
  constructor
  · intro h
    have e : getPlanTools available active
        = PLAN_TOOL_CANDIDATES.filter (fun t => t ∈ available) := by
      simp [getPlanTools, h]
    refine ⟨e, ?_, ?_⟩
    · rw [e]
      exact List.filter_sublist _
    · intro x
      rw [e]
      simp [List.mem_filter]
  · intro h
    have e : getPlanTools available active
        = dedupKeepFirst [] (active.filter (fun t => t ∉ WRITE_LIKE_TOOLS)) := by
      simp [getPlanTools, h]
    refine ⟨?_, ?_, ?_⟩
    · rw [e]
      exact nodup_dedupKeepFirst [] _
    · rw [e]
      exact (sublist_dedupKeepFirst [] _).trans (List.filter_sublist _)
    · intro x
      rw [e]
      simp [mem_dedupKeepFirst, List.mem_filter]

/-- Witness for C8: with read and edit registered, the resolved set is the
candidate-ordered intersection [read]; with no candidate registered and
active [edit, bash, bash], the fallback is the duplicate-free order
preserving [bash]. -/
theorem c8_witness :
    getPlanTools ["read", "edit"] ["edit", "bash"] = ["read"]
    ∧ (getPlanTools ["read", "edit"] ["edit", "bash"]).Sublist PLAN_TOOL_CANDIDATES
    ∧ ("read" ∈ getPlanTools ["read", "edit"] ["edit", "bash"]
        ↔ ("read" ∈ PLAN_TOOL_CANDIDATES ∧ "read" ∈ ["read", "edit"]))
    ∧ (getPlanTools ["x"] ["edit", "bash", "bash"]).Nodup
    ∧ (getPlanTools ["x"] ["edit", "bash", "bash"]).Sublist ["edit", "bash", "bash"]
    ∧ ("bash" ∈ getPlanTools ["x"] ["edit", "bash", "bash"]
        ↔ ("bash" ∈ ["edit", "bash", "bash"] ∧ "bash" ∉ WRITE_LIKE_TOOLS)) := by
  have h1 := (c8_resolve_read_only_set ["read", "edit"] ["edit", "bash"]).1 (by decide)
  have h2 := (c8_resolve_read_only_set ["x"] ["edit", "bash", "bash"]).2 (by decide)
  exact ⟨h1.1.trans (by decide), h1.2.1, h1.2.2 "read", h2.1, h2.2.1, h2.2.2 "bash"⟩

/-- Counterexample for C10: at the render-floor width 20 (the smallest
`maxLength` the selector's render ever passes) the continue label with the
one-character note "x" overflows, and the truncated label
"Continue from propo…" no longer has the option label
"Continue from proposed plan" as a prefix: the truncation cut characters
out of the option label itself, not only out of the note's tail. -/
theorem c10_counterexample :
    (continueInlineLabel CONTINUE_OPTION_LABEL ['x'] false).length = 37
    ∧ ¬ (continueInlineLabel CONTINUE_OPTION_LABEL ['x'] false).length ≤ 20
    ∧ (buildContinueOptionLabel CONTINUE_OPTION_LABEL ['x'] false 20).length = 20
    ∧ CONTINUE_OPTION_LABEL.length = 27
    ∧ ¬ ∃ t, buildContinueOptionLabel CONTINUE_OPTION_LABEL ['x'] false 20
        = CONTINUE_OPTION_LABEL ++ t := by
  refine ⟨by decide, by decide, by decide, by decide, ?_⟩
  rintro ⟨t, ht⟩
  have h1 : (buildContinueOptionLabel CONTINUE_OPTION_LABEL ['x'] false 20).length = 20 := by
    decide
  have h2 : CONTINUE_OPTION_LABEL.length = 27 := by decide
  rw [ht, List.length_append, h2] at h1
  omega

/-- C10 (amended): when the combined label plus note fits in the available
width it is rendered in full; when it overflows, the rendered label ends
with the trailing ellipsis marker, stays within the width, and what
precedes the ellipsis is a prefix of the combined string (so characters are
removed only from the tail of the combined string); the option label prefix
itself is preserved whenever the width exceeds the label's length, but for
narrower widths the truncation can cut into the option label. -/
theorem c10_amended_label_truncation (baseLabel note : List Char) (isEditing : Bool)
    (maxLength : Nat)
    (hshow : ¬ (normalizeContinueNote note = [] ∧ isEditing = false)) :
    ((continueInlineLabel baseLabel note isEditing).length ≤ maxLength →
      buildContinueOptionLabel baseLabel note isEditing maxLength
        = continueInlineLabel baseLabel note isEditing)
    ∧ (¬ (continueInlineLabel baseLabel note isEditing).length ≤ maxLength →
      (∃ p, buildContinueOptionLabel baseLabel note isEditing maxLength = p ++ ['…'])
      ∧ (buildContinueOptionLabel baseLabel note isEditing maxLength).length ≤ max maxLength 1
      ∧ (∃ t, continueInlineLabel baseLabel note isEditing
          = (buildContinueOptionLabel baseLabel note isEditing maxLength).dropLast ++ t)
      ∧ (baseLabel.length < maxLength →
          ∃ t2, buildContinueOptionLabel baseLabel note isEditing maxLength
            = baseLabel ++ t2)) := by
  have hb : buildContinueOptionLabel baseLabel note isEditing maxLength =
      (if (continueInlineLabel baseLabel note isEditing).length ≤ maxLength
        then continueInlineLabel baseLabel note isEditing
        else if maxLength ≤ 1 then ['…']
        else (continueInlineLabel baseLabel note isEditing).take (maxLength - 1) ++ ['…']) := by
    simp only [buildContinueOptionLabel, if_neg hshow]
  constructor
  · intro hfit
    rw [hb, if_pos hfit]
  · intro hover
    rw [hb, if_neg hover]
    by_cases hm : maxLength ≤ 1
    · rw [if_pos hm]
      refine ⟨⟨[], rfl⟩, by simp, ?_, ?_⟩
      · exact ⟨continueInlineLabel baseLabel note isEditing, by simp⟩
      · intro hlab
        have hnil : baseLabel = [] := List.eq_nil_of_length_eq_zero (by omega)
        exact ⟨['…'], by rw [hnil]; rfl⟩
    · rw [if_neg hm]
      refine ⟨⟨_, rfl⟩, ?_, ?_, ?_⟩
      · rw [List.length_append, List.length_take]
        simp only [List.length_singleton]
        omega
      · rw [List.dropLast_concat]
        exact ⟨(continueInlineLabel baseLabel note isEditing).drop (maxLength - 1),
          (List.take_append_drop _ _).symm⟩
      · intro hlab
        have hle : baseLabel.length ≤ maxLength - 1 := by omega
        have e1 : (continueInlineLabel baseLabel note isEditing).take (maxLength - 1)
            = baseLabel ++ (((" — note: ".data)
                ++ (if isEditing then normalizeContinueNote note ++ ['▍']
                    else normalizeContinueNote note)).take
                  (maxLength - 1 - baseLabel.length)) := by
          show (baseLabel ++ (" — note: ".data)
              ++ (if isEditing then normalizeContinueNote note ++ ['▍']
                  else normalizeContinueNote note)).take (maxLength - 1) = _
          rw [List.append_assoc, List.take_append_eq_append_take, List.take_of_length_le hle]
        refine ⟨(((" — note: ".data)
            ++ (if isEditing then normalizeContinueNote note ++ ['▍']
                else normalizeContinueNote note)).take
              (maxLength - 1 - baseLabel.length)) ++ ['…'], ?_⟩
        rw [e1, List.append_assoc]

/-- Witness for C10 (amended): at a generous width 60 the label with note
"ok" renders in full; at the floor width 20 it overflows and renders with
the trailing ellipsis. -/
theorem c10_witness :
    buildContinueOptionLabel CONTINUE_OPTION_LABEL ("ok".data) false 60
      = continueInlineLabel CONTINUE_OPTION_LABEL ("ok".data) false
    ∧ ∃ p, buildContinueOptionLabel CONTINUE_OPTION_LABEL ("ok".data) false 20
        = p ++ ['…'] := by
  refine ⟨(c10_amended_label_truncation CONTINUE_OPTION_LABEL ("ok".data) false 60
      (by decide)).1 (by decide), ?_⟩
  exact ((c10_amended_label_truncation CONTINUE_OPTION_LABEL ("ok".data) false 20
    (by decide)).2 (by decide)).1

end PiPlan
